import Mathlib

/-
Verification development for the document ingestion and normalization
pipeline of the Personal Finance Assistant repository (backend upload
route).  The four core functions `extractReceiptData`, `determineCategory`,
`parseCSVFile` and `parsePDFTransactions` are embedded shallowly:

* JavaScript numbers are modelled as `Option ℚ` (`none` plays the role of
  `NaN`; all amounts occurring in the pipeline are finite decimals).
* The regular expressions of the source are implemented character by
  character with backtracking combinators in continuation-passing style,
  reproducing the leftmost-match / greedy / lazy semantics of the
  JavaScript engine for exactly the pattern shapes used by the source.
* `new Date(string)` is modelled on the numeric date-token shapes the
  module feeds to it (M/D/Y, M-D-Y, Y-M-D, two-digit-year variants);
  out-of-calendar tokens are treated as invalid.
* The call-time clock (`new Date()` fallbacks) is an explicit `now`
  parameter of the embedded functions.
* The OCR engine, the PDF text extractor and the CSV row stream are
  external collaborators; the embedded functions consume their output
  (plain text / row lists) directly.
-/

namespace PFA

/- Batteries marks the rational arithmetic operations irreducible, which
blocks `decide`-style evaluation of the embedded functions; restore
reducibility locally for this development. -/
attribute [local semireducible] Rat.mul Rat.inv Rat.add Rat.sub Rat.ofScientific

abbrev Chars := List Char

/-- JavaScript whitespace class (ASCII part), used for the regex class
backslash-s and for `String.prototype.trim`. -/
def isJsSpace (c : Char) : Bool :=
  c = ' ' || c = '\t' || c = '\n' || c = '\r' || c = '\x0b' || c = '\x0c'

/-- The JavaScript regex dot: any character except a line terminator. -/
def isDotChar (c : Char) : Bool :=
  !(c = '\n' || c = '\r')

/-- Numeric value of a digit string, most significant digit first. -/
def digitsVal (ds : Chars) : Nat :=
  ds.foldl (fun n c => n * 10 + (c.toNat - 48)) 0

/-- Value of a fractional digit block: digits interpreted after the
decimal point. -/
def fracVal (ds : Chars) : ℚ :=
  (digitsVal ds : ℚ) / (10 : ℚ) ^ ds.length

/-- Mantissa part of the `parseFloat` grammar: `digits [. digits]` or
`. digits`, returning its value and the unconsumed remainder. -/
def parseMantissa (s : Chars) : Option (ℚ × Chars) :=
  let ip := s.takeWhile Char.isDigit
  let r2 := s.dropWhile Char.isDigit
  match r2 with
  | '.' :: rf =>
    let fp := rf.takeWhile Char.isDigit
    if ip.isEmpty && fp.isEmpty then none
    else some ((digitsVal ip : ℚ) + fracVal fp, rf.dropWhile Char.isDigit)
  | _ => if ip.isEmpty then none else some ((digitsVal ip : ℚ), r2)

/-- Exponent digits after a sign inside a `parseFloat` exponent part;
an exponent with no digits is ignored (contributes 0). -/
def expDigits (r : Chars) : Int :=
  let ds := r.takeWhile Char.isDigit
  if ds.isEmpty then 0 else (digitsVal ds : Int)

/-- Optional exponent part of the `parseFloat` grammar. -/
def parseExponent (s : Chars) : Int :=
  match s with
  | 'e' :: r =>
    (match r with
     | '-' :: r2 => -(expDigits r2)
     | '+' :: r2 => expDigits r2
     | _ => expDigits r)
  | 'E' :: r =>
    (match r with
     | '-' :: r2 => -(expDigits r2)
     | '+' :: r2 => expDigits r2
     | _ => expDigits r)
  | _ => 0

/-- Combine a mantissa value with the exponent found after it. -/
def mantExpVal (p : ℚ × Chars) : ℚ :=
  p.1 * (10 : ℚ) ^ parseExponent p.2

/-- Model of JavaScript `parseFloat` on a character list: skip leading
whitespace, optional sign, decimal mantissa, optional exponent; `none`
models `NaN`.  (The `Infinity` literal, which never occurs in this
pipeline, is not modelled.) -/
def jsParseFloatChars (t0 : Chars) : Option ℚ :=
  let t := t0.dropWhile isJsSpace
  match t with
  | [] => none
  | c :: r =>
    if c = '-' then (parseMantissa r).map (fun p => -(mantExpVal p))
    else if c = '+' then (parseMantissa r).map (fun p => mantExpVal p)
    else (parseMantissa (c :: r)).map (fun p => mantExpVal p)

/-- Model of JavaScript `parseFloat`. -/
def jsParseFloat (s : String) : Option ℚ :=
  jsParseFloatChars s.data

/-- The character class removed by the source's
`String(x).replace(/[$,₹]/g, '')`: everything except `$`, `,`, `₹` is
kept. -/
def keepC (c : Char) : Bool :=
  !(c = '$' || c = ',' || c = '₹')

/-- The source's `String(x).replace(/[$,₹]/g, '')`. -/
def stripCurrency (s : String) : String :=
  String.mk (s.data.filter keepC)

/-- Model of `String.prototype.toLowerCase` on the ASCII inputs of this
pipeline. -/
def jsToLower (s : String) : String :=
  String.mk (s.data.map Char.toLower)

/-- Character-list core of `String.prototype.trim`. -/
def trimChars (l : Chars) : Chars :=
  ((l.dropWhile isJsSpace).reverse.dropWhile isJsSpace).reverse

/-- Model of `String.prototype.trim`. -/
def jsTrim (s : String) : String :=
  String.mk (trimChars s.data)

/-- Prefix test on character lists. -/
def charsPrefix : Chars → Chars → Bool
  | [], _ => true
  | _ :: _, [] => false
  | p :: ps, c :: cs => p = c && charsPrefix ps cs

/-- Substring test on character lists. -/
def charsContains (s pat : Chars) : Bool :=
  match s with
  | [] => pat.isEmpty
  | _ :: cs => charsPrefix pat s || charsContains cs pat

/-- Model of `String.prototype.includes` (substring containment). -/
def containsStr (s pat : String) : Bool :=
  charsContains s.data pat.data

/-- JavaScript truthiness of an optional string field: present and
non-empty. -/
def truthy : Option String → Bool
  | some s => !s.data.isEmpty
  | none => false

/-- Strict positivity of a JavaScript number: `NaN > 0` is false. -/
def gtZeroQ : Option ℚ → Bool
  | some q => decide (0 < q)
  | none => false

/-! ### Calendar dates -/

/-- A calendar date, the observable content of a valid JavaScript `Date`
in this pipeline. -/
structure CalDate where
  year : Nat
  month : Nat
  day : Nat
deriving DecidableEq, Repr

def isLeapYear (y : Nat) : Bool :=
  (y % 4 = 0 && y % 100 ≠ 0) || y % 400 = 0

def daysInMonth (y m : Nat) : Nat :=
  if m = 1 then 31 else if m = 2 then (if isLeapYear y then 29 else 28)
  else if m = 3 then 31 else if m = 4 then 30 else if m = 5 then 31
  else if m = 6 then 30 else if m = 7 then 31 else if m = 8 then 31
  else if m = 9 then 30 else if m = 10 then 31 else if m = 11 then 30
  else if m = 12 then 31 else 0

def mkValidDate (y m d : Nat) : Option CalDate :=
  if 1 ≤ m ∧ m ≤ 12 ∧ 1 ≤ d ∧ d ≤ daysInMonth y m then some ⟨y, m, d⟩ else none

/-- Two-digit years are expanded the way the JavaScript legacy date
parser does. -/
def expandYear2 (y : Nat) : Nat :=
  if y < 50 then 2000 + y else 1900 + y

def allDigits (l : Chars) : Bool := l.all Char.isDigit

/-- Month/day/year token (US order), year with four or two digits. -/
def mdyOf (a b c : Chars) : Option CalDate :=
  if c.length = 4 then mkValidDate (digitsVal c) (digitsVal a) (digitsVal b)
  else if c.length = 2 then mkValidDate (expandYear2 (digitsVal c)) (digitsVal a) (digitsVal b)
  else none

/-- Year/month/day token (ISO order). -/
def ymdOf (a b c : Chars) : Option CalDate :=
  if a.length = 4 then mkValidDate (digitsVal a) (digitsVal b) (digitsVal c)
  else none

/-- Model of the JavaScript `Date` constructor restricted to the numeric
date-token shapes produced by this module's regular expressions
(M/D/Y, M-D-Y, Y-M-D, with two- or four-digit years); a token denoting
no real calendar day is treated as an invalid date. -/
def jsDateParse (s : String) : Option CalDate :=
  match s.data.splitOn '/' with
  | [a, b, c] =>
    if allDigits a && allDigits b && allDigits c && !a.isEmpty && !b.isEmpty && !c.isEmpty then
      mdyOf a b c
    else none
  | _ =>
    match s.data.splitOn '-' with
    | [a, b, c] =>
      if allDigits a && allDigits b && allDigits c && !a.isEmpty && !b.isEmpty && !c.isEmpty then
        (if a.length = 4 then ymdOf a b c else mdyOf a b c)
      else none
    | _ => none

/-! ### Backtracking regex combinators

Continuation-passing matchers that reproduce the JavaScript engine's
behaviour (leftmost match, greedy/lazy quantifiers, backtracking order:
later quantifiers vary first) for the pattern shapes of the source. -/

/-- Greedy star over a character class: hand the continuation the
consumed run (longest first) and the remainder. `acc` is the run
consumed so far. -/
def greedyStarC {α} (p : Char → Bool) (f : Chars → Chars → Option α) :
    Chars → Chars → Option α
  | acc, [] => f acc []
  | acc, c :: cs =>
    if p c then (greedyStarC p f (acc ++ [c]) cs).orElse (fun _ => f acc (c :: cs))
    else f acc (c :: cs)

/-- Greedy plus over a character class. -/
def greedyPlusK {α} (p : Char → Bool) (f : Chars → Chars → Option α)
    (s : Chars) : Option α :=
  match s with
  | c :: cs => if p c then greedyStarC p (fun acc r => f (c :: acc) r) [] cs else none
  | [] => none

/-- Lazy plus over a character class: shortest consumption first.
`acc` is the run consumed so far. -/
def lazyPlusGo {α} (p : Char → Bool) (f : Chars → Chars → Option α) :
    Chars → Chars → Option α
  | _, [] => none
  | acc, c :: cs =>
    if p c then (f (acc ++ [c]) cs).orElse (fun _ => lazyPlusGo p f (acc ++ [c]) cs)
    else none

/-- Greedy optional single character. -/
def optCharG {α} (c : Char) (f : Chars → Chars → Option α) (s : Chars) :
    Option α :=
  match s with
  | x :: r => if x = c then (f [x] r).orElse (fun _ => f [] (x :: r)) else f [] (x :: r)
  | [] => f [] []

/-- Greedy optional single character from a class. -/
def optClsG {α} (p : Char → Bool) (f : Chars → Chars → Option α) (s : Chars) :
    Option α :=
  match s with
  | x :: r => if p x then (f [x] r).orElse (fun _ => f [] (x :: r)) else f [] (x :: r)
  | [] => f [] []

/-- Exact repetition of a character class. -/
def exactRep {α} (p : Char → Bool) (n : Nat) (f : Chars → Chars → Option α)
    (s : Chars) : Option α :=
  let pre := s.take n
  if pre.length = n ∧ pre.all p then f pre (s.drop n) else none

/-- Repetition of a character class with one or two occurrences, greedy. -/
def upTo2 {α} (p : Char → Bool) (f : Chars → Chars → Option α) (s : Chars) :
    Option α :=
  match s with
  | a :: b :: r =>
    if p a then
      (if p b then (f [a, b] r).orElse (fun _ => f [a] (b :: r)) else f [a] (b :: r))
    else none
  | [a] => if p a then f [a] [] else none
  | [] => none

/-- Case-insensitive literal; returns the remainder on success. -/
def litCIGo : Chars → Chars → Option Chars
  | [], s => some s
  | _ :: _, [] => none
  | p :: ps, c :: cs => if p.toLower = c.toLower then litCIGo ps cs else none

/-- Leftmost-match search: try the matcher at every start position. -/
def searchA {α} (f : Chars → Option α) : Chars → Option α
  | [] => f []
  | c :: cs => (f (c :: cs)).orElse (fun _ => searchA f cs)

/-! ### The source's regular expressions -/

/-- The capture `([0-9]+\.?[0-9]*)`, handing the captured token to the
continuation. -/
def numGroupK {α} (f : Chars → Chars → Option α) (s : Chars) : Option α :=
  match s with
  | c :: cs =>
    if c.isDigit then
      greedyStarC Char.isDigit (fun d1 r1 =>
        optCharG '.' (fun dot r2 =>
          greedyStarC Char.isDigit (fun d2 r3 => f (c :: (d1 ++ dot ++ d2)) r3) [] r2) r1) [] cs
    else none
  | [] => none

/-- The tail `[:\s]*\$?([0-9]+\.?[0-9]*)` shared by the word-prefixed
total patterns; returns the captured amount token. -/
def totalTailK (r1 : Chars) : Option Chars :=
  greedyStarC (fun c => c = ':' || isJsSpace c) (fun _ r2 =>
    optCharG '$' (fun _ r3 => numGroupK (fun num _ => some num) r3) r2) [] r1

/-- Matcher body of the first total pattern of the source,
`total[:\s]*\$?([0-9]+\.?[0-9]*)` with the ignore-case flag. -/
def t1At (s : Chars) : Option Chars :=
  (litCIGo "total".data s).bind totalTailK

/-- Matcher body of `amount[:\s]*\$?([0-9]+\.?[0-9]*)`, ignore-case. -/
def t2At (s : Chars) : Option Chars :=
  (litCIGo "amount".data s).bind totalTailK

/-- Matcher body of `\$([0-9]+\.?[0-9]*)\s*total`, ignore-case. -/
def t3At (s : Chars) : Option Chars :=
  match s with
  | '$' :: r1 =>
    numGroupK (fun num r2 =>
      greedyStarC isJsSpace (fun _ r3 => (litCIGo "total".data r3).map (fun _ => num)) [] r2) r1
  | _ => none

/-- Matcher body of `grand\s*total[:\s]*\$?([0-9]+\.?[0-9]*)`, ignore-case. -/
def t5At (s : Chars) : Option Chars :=
  (litCIGo "grand".data s).bind (fun r1 =>
    greedyStarC isJsSpace (fun _ r2 =>
      (litCIGo "total".data r2).bind totalTailK) [] r1)

/-- Matcher body of `final\s*total[:\s]*\$?([0-9]+\.?[0-9]*)`, ignore-case. -/
def t6At (s : Chars) : Option Chars :=
  (litCIGo "final".data s).bind (fun r1 =>
    greedyStarC isJsSpace (fun _ r2 =>
      (litCIGo "total".data r2).bind totalTailK) [] r1)

/-- Matcher body of the global pattern `\$([0-9]+\.[0-9]{2})`, returning
the full match and the remainder after it. -/
def t4At (s : Chars) : Option (Chars × Chars) :=
  match s with
  | '$' :: r1 =>
    greedyPlusK Char.isDigit (fun ds r2 =>
      match r2 with
      | '.' :: r3 =>
        exactRep Char.isDigit 2 (fun fr r4 => some ('$' :: (ds ++ '.' :: fr), r4)) r3
      | _ => none) r1
  | _ => none

/-- Scan for all matches of the global pattern `\$([0-9]+\.[0-9]{2})`,
like `String.prototype.match` with the `g` flag: full matches only,
continuing after each match.  The fuel is the input length, which
suffices because every step consumes at least one character. -/
def t4Go : Nat → Chars → List String
  | 0, _ => []
  | _ + 1, [] => []
  | n + 1, c :: cs =>
    match t4At (c :: cs) with
    | some (m, rest) => String.mk m :: t4Go n rest
    | none => t4Go n cs

/-- All matches of `\$([0-9]+\.[0-9]{2})/g` in a line. -/
def t4All (line : String) : List String :=
  t4Go line.data.length line.data

/-! ### Date-token patterns -/

/-- `\d{1,2} sep \d{1,2} sep \d{n}` date shape (US order), handing the
whole token to the continuation. -/
def mdyK {α} (sep : Char) (yearLen : Nat) (f : Chars → Chars → Option α)
    (s : Chars) : Option α :=
  upTo2 Char.isDigit (fun d1 r1 =>
    match r1 with
    | c :: r2 =>
      if c = sep then
        upTo2 Char.isDigit (fun d2 r3 =>
          match r3 with
          | c2 :: r4 =>
            if c2 = sep then
              exactRep Char.isDigit yearLen (fun y r5 =>
                f (d1 ++ c :: (d2 ++ c2 :: y)) r5) r4
            else none
          | [] => none) r2
      else none
    | [] => none) s

/-- `\d{4}-\d{1,2}-\d{1,2}` date shape (ISO order). -/
def ymdK {α} (f : Chars → Chars → Option α) (s : Chars) : Option α :=
  exactRep Char.isDigit 4 (fun y r1 =>
    match r1 with
    | '-' :: r2 =>
      upTo2 Char.isDigit (fun m r3 =>
        match r3 with
        | '-' :: r4 =>
          upTo2 Char.isDigit (fun d r5 => f (y ++ '-' :: (m ++ '-' :: d)) r5) r4
        | _ => none) r2
    | _ => none) s

/-- Search for `(\d{1,2}\/\d{1,2}\/\d{4})` in a line. -/
def matchMdySlash4 (line : String) : Option String :=
  (searchA (mdyK '/' 4 (fun tok _ => some tok)) line.data).map String.mk

/-- Search for `(\d{1,2}-\d{1,2}-\d{4})` in a line. -/
def matchMdyDash4 (line : String) : Option String :=
  (searchA (mdyK '-' 4 (fun tok _ => some tok)) line.data).map String.mk

/-- Search for `(\d{4}-\d{1,2}-\d{1,2})` in a line. -/
def matchYmd (line : String) : Option String :=
  (searchA (ymdK (fun tok _ => some tok)) line.data).map String.mk

/-- Search for `(\d{1,2}\/\d{1,2}\/\d{2})` in a line. -/
def matchMdySlash2 (line : String) : Option String :=
  (searchA (mdyK '/' 2 (fun tok _ => some tok)) line.data).map String.mk

/-- Search for `(\d{1,2}-\d{1,2}-\d{2})` in a line. -/
def matchMdyDash2 (line : String) : Option String :=
  (searchA (mdyK '-' 2 (fun tok _ => some tok)) line.data).map String.mk

/-! ### Item and statement-line patterns -/

/-- The part of the item pattern after the lazy name group:
`\s+\$?([0-9]+\.?[0-9]*)`. -/
def itemTail (name r1 : Chars) : Option (Chars × Chars) :=
  greedyPlusK isJsSpace (fun _ r2 =>
    optCharG '$' (fun _ r3 =>
      numGroupK (fun num _ => some (name, num)) r3) r2) r1

/-- Matcher body of the item pattern `(.+?)\s+\$?([0-9]+\.?[0-9]*)`,
returning the two captured groups. -/
def itemAt (s : Chars) : Option (Chars × Chars) :=
  lazyPlusGo isDotChar itemTail [] s

/-- Leftmost match of the item pattern in a line. -/
def itemMatchLine (line : String) : Option (String × String) :=
  (searchA itemAt line.data).map (fun p => (String.mk p.1, String.mk p.2))

/-- The signed amount token `([+-]?\$?₹?[0-9,]+\.?[0-9]*)` of the
statement-line patterns. -/
def amtTokK {α} (f : Chars → Chars → Option α) (s : Chars) : Option α :=
  optClsG (fun c => c = '+' || c = '-') (fun sgn r1 =>
    optCharG '$' (fun dl r2 =>
      optCharG '₹' (fun ru r3 =>
        greedyPlusK (fun c => c.isDigit || c = ',') (fun body r4 =>
          optCharG '.' (fun dot r5 =>
            greedyStarC Char.isDigit (fun fr r6 =>
              f (sgn ++ dl ++ ru ++ body ++ dot ++ fr) r6) [] r5) r4) r3) r2) r1) s

/-- The result of a statement-line pattern: the three captured groups
(date token, description, amount token). -/
abbrev PdfGroups := Chars × Chars × Chars

/-- Matcher body of a statement-line pattern: a date shape followed by
`\s+(.+?)\s+([+-]?\$?₹?[0-9,]+\.?[0-9]*)`; returns the three captured
groups (date token, description, amount token). -/
def pdfPatAt (dateK : (Chars → Chars → Option PdfGroups) → Chars → Option PdfGroups)
    (s : Chars) : Option PdfGroups :=
  dateK (fun dTok r1 =>
    greedyPlusK isJsSpace (fun _ r2 =>
      lazyPlusGo isDotChar (fun desc r3 =>
        greedyPlusK isJsSpace (fun _ r4 =>
          amtTokK (fun amt _ => some (dTok, desc, amt)) r4) r3) [] r2) r1) s

/-- Leftmost match of the first statement-line pattern
`(\d{1,2}\/\d{1,2}\/\d{4})\s+(.+?)\s+([+-]?\$?₹?[0-9,]+\.?[0-9]*)`. -/
def pdfP1 (s : Chars) : Option PdfGroups :=
  searchA (pdfPatAt (mdyK '/' 4)) s

/-- Leftmost match of the second statement-line pattern (dash dates). -/
def pdfP2 (s : Chars) : Option PdfGroups :=
  searchA (pdfPatAt (mdyK '-' 4)) s

/-- Leftmost match of the third statement-line pattern (ISO dates). -/
def pdfP3 (s : Chars) : Option PdfGroups :=
  searchA (pdfPatAt ymdK) s

/-- The source's inner loop over the three statement-line patterns:
first pattern that matches wins. -/
def pdfFirstMatch (s : Chars) : Option (Chars × Chars × Chars) :=
  (pdfP1 s).orElse (fun _ => (pdfP2 s).orElse (fun _ => pdfP3 s))

/-! ### Shared line splitting -/

/-- Split a character list on a separator character, keeping empty
pieces, like `String.prototype.split` with a one-character separator. -/
def splitOnChar (c : Char) : Chars → List Chars
  | [] => [[]]
  | x :: xs =>
    match splitOnChar c xs with
    | [] => [[]]
    | h :: t => if x = c then [] :: h :: t else (x :: h) :: t

/-- `text.split('\n').map(l => l.trim()).filter(l => l.length > 0)`. -/
def linesOf (text : String) : List String :=
  ((splitOnChar '\n' text.data).map (fun l => jsTrim (String.mk l))).filter
    (fun l => !l.data.isEmpty)

/-! ### Category Classifier (`determineCategory`) -/

/-- The source's `determineCategory`: lower-case the merchant name or
description, then walk the keyword rules in source order. -/
def determineCategory (merchantName : String) : String :=
  let name := jsToLower merchantName
  if containsStr name "grocery" || containsStr name "food" ||
     containsStr name "supermarket" || containsStr name "market" then
    "Food & Dining"
  else if containsStr name "gas" || containsStr name "fuel" ||
          containsStr name "shell" || containsStr name "exxon" then
    "Transportation"
  else if containsStr name "amazon" || containsStr name "walmart" ||
          containsStr name "target" || containsStr name "costco" then
    "Shopping"
  else if containsStr name "restaurant" || containsStr name "cafe" ||
          containsStr name "pizza" || containsStr name "burger" then
    "Food & Dining"
  else if containsStr name "uber" || containsStr name "lyft" ||
          containsStr name "taxi" then
    "Transportation"
  else if containsStr name "netflix" || containsStr name "spotify" ||
          containsStr name "hulu" || containsStr name "amazon prime" then
    "Entertainment"
  else if containsStr name "gym" || containsStr name "fitness" ||
          containsStr name "planet fitness" then
    "Health & Fitness"
  else
    "Other"

/-! ### Receipt Text Extractor (`extractReceiptData`)

The OCR engine (Tesseract) is an external collaborator; the embedded
extractor consumes its text output.  The call-time clock is the explicit
`now` parameter. -/

/-- Result of receipt parsing (the source's return object). -/
structure ReceiptData where
  total : ℚ
  merchantName : String
  date : CalDate
  items : List (String × ℚ)
  category : String
  rawText : String
deriving DecidableEq, Repr

/-- Candidate amount a total pattern contributes on one line:
`parseFloat(match[1])` as an optional rational.  For the global
pattern 4 the match array holds full matches, so `match[1]` is the
second full match (or `undefined`); both parse to `NaN`. -/
def totalCands (line : String) : List (Option ℚ) :=
  [ (searchA t1At line.data).bind (fun g => jsParseFloat (String.mk g)),
    (searchA t2At line.data).bind (fun g => jsParseFloat (String.mk g)),
    (searchA t3At line.data).bind (fun g => jsParseFloat (String.mk g)),
    ((t4All line).get? 1).bind jsParseFloat,
    (searchA t5At line.data).bind (fun g => jsParseFloat (String.mk g)),
    (searchA t6At line.data).bind (fun g => jsParseFloat (String.mk g)) ]

/-- The source's running-maximum update `if (amount > total) total = amount`;
a `NaN` candidate never updates. -/
def stepMax (t : ℚ) (a : Option ℚ) : ℚ :=
  match a with
  | some q => if t < q then q else t
  | none => t

/-- The total loop of `extractReceiptData`. -/
def receiptTotal (text : String) : ℚ :=
  (linesOf text).foldl (fun t line => (totalCands line).foldl stepMax t) 0

/-- The source's ordered date pattern list applied to one line: the
first pattern whose match parses to a valid date wins within the line. -/
def lineFirstValidDate (line : String) : Option CalDate :=
  [matchMdySlash4, matchMdyDash4, matchYmd, matchMdySlash2, matchMdyDash2].findSome?
    (fun f => (f line).bind jsDateParse)

/-- The date loop of `extractReceiptData`: `date` starts as the current
date and is overwritten by every line that has a valid match (the inner
`break` only leaves the pattern loop). -/
def receiptDate (now : CalDate) (text : String) : CalDate :=
  (linesOf text).foldl (fun d line =>
    match lineFirstValidDate line with
    | some d2 => d2
    | none => d) now

/-- The item loop of `extractReceiptData`. -/
def receiptItems (text : String) : List (String × ℚ) :=
  (linesOf text).filterMap (fun line =>
    match itemMatchLine line with
    | some (n, a) =>
      match jsParseFloat a with
      | some q => if 0 < q then some (jsTrim n, q) else none
      | none => none
    | none => none)

/-- The merchant name: first non-empty line truncated to 50 characters,
empty when there are no lines. -/
def receiptMerchant (text : String) : String :=
  match linesOf text with
  | [] => ""
  | l :: _ => String.mk (l.data.take 50)

/-- The source's `extractReceiptData`, applied to the OCR text. -/
def extractReceiptData (now : CalDate) (text : String) : ReceiptData :=
  { total := receiptTotal text
    merchantName := receiptMerchant text
    date := receiptDate now text
    items := receiptItems text
    category := determineCategory (receiptMerchant text)
    rawText := text }

/-! ### Normalized transactions -/

/-- The source's normalized transaction record.  `amount` is a
JavaScript number (`none` = `NaN`), `type` is the string
`"income"`/`"expense"` as in the source. -/
structure Txn where
  date : CalDate
  description : String
  amount : Option ℚ
  type : String
  category : String
  paymentMethod : String
deriving DecidableEq, Repr

/-! ### Tabular Row Normalizer (`parseCSVFile`)

The CSV row-stream collaborator delivers each row as key/value pairs;
a row is an association list (later duplicate keys overwrite, as in a
JavaScript object). -/

abbrev Row := List (String × String)

/-- The source's key normalization `key.trim().toLowerCase()`. -/
def normKey (k : String) : String := jsToLower (jsTrim k)

/-- `cleanData[k]`: value of the last entry whose normalized key is `k`. -/
def cleanLookup (row : Row) (k : String) : Option String :=
  row.foldl (fun acc p => if normKey p.1 = k then some p.2 else acc) none

/-- JavaScript `a || b` on optional string fields: an absent or empty
value falls through. -/
def jsOr (a b : Option String) : Option String :=
  if truthy a then a else b

/-- Alias chain for one logical field. -/
def fieldAlias (row : Row) (ks : List String) : Option String :=
  ks.foldl (fun acc k => jsOr acc (cleanLookup row k)) none

def dateAliases : List String := ["date", "transaction_date", "transactiondate"]

def descAliases : List String := ["description", "memo", "note", "merchant"]

def amountAliases : List String := ["amount", "transaction_amount", "transactionamount"]

def categoryAliases : List String := ["category", "transaction_category", "transactioncategory"]

/-- The Monetary Token Parser of the source:
`parseFloat(String(x).replace(/[$,₹]/g, ''))`. -/
def monetaryParse (s : String) : Option ℚ :=
  jsParseFloat (stripCurrency s)

/-- The CSV fallback date formats, in source order, searched inside the
raw field; the first match that parses to a valid date wins. -/
def csvDateFallback (s : String) : Option CalDate :=
  [matchYmd, matchMdySlash4, matchMdyDash4].findSome?
    (fun f => (f s).bind jsDateParse)

/-- `new Date(field)` and, when invalid, the fallback format loop. -/
def csvParsedDate (s : String) : Option CalDate :=
  (jsDateParse s).orElse (fun _ => csvDateFallback s)

def csvIncomeKeywords : List String :=
  ["deposit", "salary", "payment received", "credit", "refund"]

/-- Whether the lower-cased description contains one of the CSV income
keywords. -/
def csvKeywordHit (descS : String) : Bool :=
  csvIncomeKeywords.any (fun k => containsStr (jsToLower descS) k)

/-- The source's income test for a CSV row: positive parsed amount or an
income keyword in the (lower-cased) description. -/
def csvIsIncome (descS amtS : String) : Bool :=
  gtZeroQ (monetaryParse amtS) || csvKeywordHit descS

/-- The per-row body of `parseCSVFile`: zero or one normalized record. -/
def parseCSVRow (now : CalDate) (row : Row) : Option Txn :=
  let dateF := fieldAlias row dateAliases
  let descF := fieldAlias row descAliases
  let amtF := fieldAlias row amountAliases
  let catF := fieldAlias row categoryAliases
  if truthy dateF && truthy descF && truthy amtF then
    let dateS := dateF.getD ""
    let descS := descF.getD ""
    let amtS := amtF.getD ""
    let amount := (monetaryParse amtS).map (fun q => |q|)
    let isInc := csvIsIncome descS amtS
    let category :=
      if truthy catF then catF.getD ""
      else if isInc then "Income"
      else determineCategory descS
    let txn : Txn :=
      { date := (csvParsedDate dateS).getD now
        description := jsTrim descS
        amount := amount
        type := if isInc then "income" else "expense"
        category := category
        paymentMethod := "bank_transfer" }
    if gtZeroQ amount && !(jsTrim descS).data.isEmpty then some txn else none
  else none

/-- The source's `parseCSVFile` over the streamed rows (per-row errors
are caught and the row skipped, so the whole parse is total). -/
def parseCSVFile (now : CalDate) (rows : List Row) : List Txn :=
  rows.filterMap (parseCSVRow now)

/-! ### Statement Line Extractor (`parsePDFTransactions`)

The PDF text engine is an external collaborator; the embedded extractor
consumes its text output.  This path never consults the clock. -/

def pdfIncomeKeywords : List String := ["deposit", "payment received", "credit"]

/-- The source's income test for a statement line: a `+` in the raw
amount token or an income keyword in the lower-cased description. -/
def pdfIsIncome (description aTok : String) : Bool :=
  containsStr aTok "+" ||
    pdfIncomeKeywords.any (fun k => containsStr (jsToLower description) k)

/-- The per-line body of `parsePDFTransactions`: the first matching
pattern wins; the line is skipped when the date is invalid, the amount
non-positive or the description empty. -/
def pdfLineParse (line : String) : Option Txn :=
  match pdfFirstMatch line.data with
  | none => none
  | some (dTok, descTok, aTok) =>
    let description := jsTrim (String.mk descTok)
    let amount := (monetaryParse (String.mk aTok)).map (fun q => |q|)
    match jsDateParse (String.mk dTok) with
    | none => none
    | some d =>
      if gtZeroQ amount && !description.data.isEmpty then
        let isInc := pdfIsIncome description (String.mk aTok)
        some { date := d
               description := description
               amount := amount
               type := if isInc then "income" else "expense"
               category := if isInc then "Income" else determineCategory description
               paymentMethod := "bank_transfer" }
      else none

/-- The source's `parsePDFTransactions`, applied to the extracted text. -/
def parsePDFTransactions (text : String) : List Txn :=
  (linesOf text).filterMap pdfLineParse

/-! ### Specification-side definitions

These follow the wording of the specification and are compared with the
definitions translated from the source. -/

/-- The ordered keyword-group rules of the Category Classifier as the
specification describes them: Food/grocery terms, gas/fuel brands,
big-box brands, restaurant terms, rideshare, streaming brands, fitness
terms. -/
def categoryRules : List (List String × String) :=
  [ (["grocery", "food", "supermarket", "market"], "Food & Dining"),
    (["gas", "fuel", "shell", "exxon"], "Transportation"),
    (["amazon", "walmart", "target", "costco"], "Shopping"),
    (["restaurant", "cafe", "pizza", "burger"], "Food & Dining"),
    (["uber", "lyft", "taxi"], "Transportation"),
    (["netflix", "spotify", "hulu", "amazon prime"], "Entertainment"),
    (["gym", "fitness", "planet fitness"], "Health & Fitness") ]

/-- First-match-wins evaluation of keyword-group rules, as the
specification describes the classifier. -/
def firstMatchCat (name : String) : List (List String × String) → String
  | [] => "Other"
  | (kws, cat) :: rest =>
    if kws.any (fun k => containsStr name k) then cat else firstMatchCat name rest

/-- Specification-side classifier: lower-case, then first matching rule. -/
def specClassify (s : String) : String :=
  firstMatchCat (jsToLower s) categoryRules

/-- The classifier's fixed output taxonomy. -/
def classifierTaxonomy : List String :=
  ["Food & Dining", "Transportation", "Shopping", "Entertainment",
   "Health & Fitness", "Other"]

/-! ### Claim theorems -/

/-- C4. The Category Classifier lower-cases its input and evaluates the
ordered keyword-group rules with first-match-wins precedence, returning
"Other" when no rule matches; `classify("Shell Gas Station") =
"Transportation"`, `classify("Whole Foods Market") = "Food & Dining"`,
`classify("Random Store XYZ") = "Other"`, and every output lies in the
fixed taxonomy. -/
theorem c4_category_classifier :
    (∀ s, determineCategory s = specClassify s) ∧
    determineCategory "Shell Gas Station" = "Transportation" ∧
    determineCategory "Whole Foods Market" = "Food & Dining" ∧
    determineCategory "Random Store XYZ" = "Other" ∧
    (∀ s, determineCategory s ∈ classifierTaxonomy) := by
  refine ⟨?_, by decide, by decide, by decide, ?_⟩
  · intro s
    simp only [determineCategory, specClassify, categoryRules, firstMatchCat,
      List.any_cons, List.any_nil, Bool.or_false, Bool.or_assoc]
  · intro s
    simp only [determineCategory, classifierTaxonomy]
    split
    · simp
    · split
      · simp
      · split
        · simp
        · split
          · simp
          · split
            · simp
            · split
              · simp
              · split
                · simp
                · simp

/-! ### Bridging lemmas -/

theorem gtZeroQ_eq_true_iff (o : Option ℚ) :
    gtZeroQ o = true ↔ ∃ q, o = some q ∧ 0 < q := by
  cases o with
  | none => simp [gtZeroQ]
  | some q => simp [gtZeroQ]

theorem string_ne_empty_of_data {s : String} (h : s.data ≠ []) : s ≠ "" := by
  intro hs
  exact h (by simp [hs])

/-! ### Sample inputs -/

def sampleCsvRow : Row :=
  [("date", "2024-01-15"), ("description", "Grocery Store"), ("amount", "-45.67")]

def sampleCsvTxn : Txn :=
  { date := ⟨2024, 1, 15⟩
    description := "Grocery Store"
    amount := some (4567 / 100)
    type := "expense"
    category := "Food & Dining"
    paymentMethod := "bank_transfer" }

def samplePdfText : String := "01/15/2024 Deposit from Employer +$1,200.00"

def samplePdfTxn : Txn :=
  { date := ⟨2024, 1, 15⟩
    description := "Deposit from Employer"
    amount := some 1200
    type := "income"
    category := "Income"
    paymentMethod := "bank_transfer" }

/-- C5. The Tabular Row Normalizer turns the sample row
`{date: "2024-01-15", description: "Grocery Store", amount: "-45.67"}`
into exactly one expense record with amount 45.67 and category
"Food & Dining"; in general a row's emitted record has income polarity
iff the parsed numeric amount is positive or the description contains
one of the income keywords, and the stored amount is the absolute
value. -/
theorem c5_tabular_row_normalizer :
    parseCSVRow ⟨1970, 1, 1⟩ sampleCsvRow = some sampleCsvTxn ∧
    (∀ now row txn, parseCSVRow now row = some txn →
      ((txn.type = "income" ↔
        ((∃ q, monetaryParse ((fieldAlias row amountAliases).getD "") = some q ∧ 0 < q) ∨
          csvKeywordHit ((fieldAlias row descAliases).getD "") = true)) ∧
        txn.amount = (monetaryParse ((fieldAlias row amountAliases).getD "")).map (fun q => |q|))) := by
  constructor
  · decide
  · intro now row txn h
    simp only [parseCSVRow] at h
    split at h
    · split at h
      · rw [Option.some.injEq] at h
        subst h
        refine ⟨?_, rfl⟩
        simp only [csvIsIncome, Bool.or_eq_true, ← gtZeroQ_eq_true_iff]
        split
        · simp_all
        · simp_all
      · exact Option.noConfusion h
    · exact Option.noConfusion h

/-- C5 witness: the theorem applied to the sample row. -/
theorem c5_tabular_row_normalizer_witness :
    (sampleCsvTxn.type = "income" ↔
      ((∃ q, monetaryParse ((fieldAlias sampleCsvRow amountAliases).getD "") = some q ∧ 0 < q) ∨
        csvKeywordHit ((fieldAlias sampleCsvRow descAliases).getD "") = true)) ∧
    sampleCsvTxn.amount =
      (monetaryParse ((fieldAlias sampleCsvRow amountAliases).getD "")).map (fun q => |q|) :=
  c5_tabular_row_normalizer.2 ⟨1970, 1, 1⟩ sampleCsvRow sampleCsvTxn (by decide)

/-- C6. The Statement Line Extractor turns the line
`"01/15/2024 Deposit from Employer +$1,200.00"` into exactly one income
record with amount 1200.00; per line the three date+description+amount
patterns are tested in order with first-match-wins, and an emitted
record has income polarity iff the raw amount token contains a plus
sign or the description contains "deposit", "payment received" or
"credit". -/
theorem c6_statement_line_extractor :
    parsePDFTransactions samplePdfText = [samplePdfTxn] ∧
    (∀ s v, pdfP1 s = some v → pdfFirstMatch s = some v) ∧
    (∀ line txn dTok descTok aTok,
      pdfFirstMatch line.data = some (dTok, descTok, aTok) →
      pdfLineParse line = some txn →
      (txn.type = "income" ↔
        pdfIsIncome (jsTrim (String.mk descTok)) (String.mk aTok) = true)) := by
  refine ⟨by decide, ?_, ?_⟩
  · intro s v h
    simp only [pdfFirstMatch, h, Option.orElse]
  · intro line txn dTok descTok aTok hm h
    simp only [pdfLineParse, hm] at h
    split at h
    · exact Option.noConfusion h
    · split at h
      · rw [Option.some.injEq] at h
        subst h
        split
        · simp_all
        · simp_all
      · exact Option.noConfusion h

/-- C6 witness: the theorem applied to the sample statement line. -/
theorem c6_statement_line_extractor_witness :
    samplePdfTxn.type = "income" ↔
      pdfIsIncome (jsTrim (String.mk "Deposit from Employer".data))
        (String.mk "+$1,200.00".data) = true :=
  c6_statement_line_extractor.2.2 samplePdfText samplePdfTxn
    "01/15/2024".data "Deposit from Employer".data "+$1,200.00".data
    (by decide) (by decide)

/-- A row with a missing logical field produces no record. -/
theorem parseCSVRow_none_of_missing (now : CalDate) (row : Row)
    (h : fieldAlias row dateAliases = none ∨ fieldAlias row descAliases = none ∨
      fieldAlias row amountAliases = none) :
    parseCSVRow now row = none := by
  have hc : (truthy (fieldAlias row dateAliases) && truthy (fieldAlias row descAliases) &&
      truthy (fieldAlias row amountAliases)) = false := by
    rcases h with h | h | h <;> simp [h, truthy]
  simp only [parseCSVRow, hc, Bool.false_eq_true, if_false]

/-- C8. A CSV row whose date, description or amount field is absent
after alias reconciliation contributes no record and raises no error:
the overall parse still returns exactly the records of the remaining
rows. -/
theorem c8_missing_field_row_skipped :
    (∀ now row, (fieldAlias row dateAliases = none ∨ fieldAlias row descAliases = none ∨
        fieldAlias row amountAliases = none) →
      parseCSVRow now row = none) ∧
    (∀ now pre post row, (fieldAlias row dateAliases = none ∨
        fieldAlias row descAliases = none ∨ fieldAlias row amountAliases = none) →
      parseCSVFile now (pre ++ row :: post) =
        parseCSVFile now pre ++ parseCSVFile now post) := by
  refine ⟨parseCSVRow_none_of_missing, ?_⟩
  intro now pre post row h
  simp [parseCSVFile, List.filterMap_append, List.filterMap_cons,
    parseCSVRow_none_of_missing now row h]

/-- C8 witness: a row with no amount field is skipped and the parse
returns the remaining rows' records. -/
theorem c8_missing_field_row_skipped_witness :
    parseCSVRow ⟨1970, 1, 1⟩ [("date", "2024-01-15"), ("description", "Lunch")] = none ∧
    parseCSVFile ⟨1970, 1, 1⟩
        [sampleCsvRow, [("date", "2024-01-15"), ("description", "Lunch")]] =
      parseCSVFile ⟨1970, 1, 1⟩ [sampleCsvRow] ++ parseCSVFile ⟨1970, 1, 1⟩ [] :=
  ⟨c8_missing_field_row_skipped.1 ⟨1970, 1, 1⟩
      [("date", "2024-01-15"), ("description", "Lunch")] (by decide),
    c8_missing_field_row_skipped.2 ⟨1970, 1, 1⟩ [sampleCsvRow] []
      [("date", "2024-01-15"), ("description", "Lunch")] (by decide)⟩

/-! ### Trimming is idempotent -/

theorem dropWhile_idem (p : Char → Bool) (l : Chars) :
    (l.dropWhile p).dropWhile p = l.dropWhile p := by
  induction l with
  | nil => rfl
  | cons c cs ih =>
    rw [List.dropWhile_cons]
    split
    · exact ih
    · rw [List.dropWhile_cons]
      simp [*]

theorem dropWhile_getLast? (p : Char → Bool) (l : Chars) :
    l.dropWhile p = [] ∨ (l.dropWhile p).getLast? = l.getLast? := by
  induction l with
  | nil => exact Or.inl rfl
  | cons c cs ih =>
    rw [List.dropWhile_cons]
    split
    · rcases cs with _ | ⟨d, ds⟩
      · exact Or.inl rfl
      · rcases ih with h | h
        · exact Or.inl h
        · exact Or.inr (by rw [h, List.getLast?_cons_cons])
    · exact Or.inr rfl

theorem dropWhile_head?_not (p : Char → Bool) (l : Chars) {c : Char}
    (h : (l.dropWhile p).head? = some c) : p c = false := by
  induction l with
  | nil => simp at h
  | cons x xs ih =>
    rw [List.dropWhile_cons] at h
    split at h
    · exact ih h
    · simp only [List.head?_cons, Option.some.injEq] at h
      subst h
      exact Bool.eq_false_iff.mpr ‹¬_›

theorem dropWhile_eq_self_of_head (p : Char → Bool) (l : Chars)
    (h : l = [] ∨ ∃ c cs, l = c :: cs ∧ p c = false) : l.dropWhile p = l := by
  rcases h with rfl | ⟨c, cs, rfl, hc⟩
  · rfl
  · rw [List.dropWhile_cons]
    simp [hc]

theorem trimChars_idem (l : Chars) : trimChars (trimChars l) = trimChars l := by
  unfold trimChars
  by_cases hb : (l.dropWhile isJsSpace).reverse.dropWhile isJsSpace = []
  · rw [hb]
    rfl
  · have hstep1 :
        ((l.dropWhile isJsSpace).reverse.dropWhile isJsSpace).reverse.dropWhile isJsSpace =
          ((l.dropWhile isJsSpace).reverse.dropWhile isJsSpace).reverse := by
      apply dropWhile_eq_self_of_head
      have ha : l.dropWhile isJsSpace ≠ [] := by
        intro h0
        exact hb (by rw [h0]; rfl)
      obtain ⟨c, cs, hcs⟩ := List.exists_cons_of_ne_nil ha
      have hc : isJsSpace c = false :=
        dropWhile_head?_not isJsSpace l (by rw [hcs]; rfl)
      have hlast : ((l.dropWhile isJsSpace).reverse.dropWhile isJsSpace).getLast? = some c := by
        rcases dropWhile_getLast? isJsSpace (l.dropWhile isJsSpace).reverse with h | h
        · exact absurd h hb
        · rw [h, List.getLast?_reverse, hcs]
          rfl
      have hhead :
          (((l.dropWhile isJsSpace).reverse.dropWhile isJsSpace).reverse).head? = some c := by
        rw [List.head?_reverse, hlast]
      obtain ⟨d, ds, hds⟩ :=
        List.exists_cons_of_ne_nil (l := ((l.dropWhile isJsSpace).reverse.dropWhile isJsSpace).reverse)
          (by
            intro h0
            rw [h0] at hhead
            exact Option.noConfusion hhead)
      refine Or.inr ⟨d, ds, hds, ?_⟩
      rw [hds] at hhead
      simp only [List.head?_cons, Option.some.injEq] at hhead
      rw [hhead]
      exact hc
    rw [hstep1, List.reverse_reverse, dropWhile_idem]

theorem jsTrim_idem (s : String) : jsTrim (jsTrim s) = jsTrim s := by
  show String.mk (trimChars (trimChars s.data)) = String.mk (trimChars s.data)
  rw [trimChars_idem]

/-! ### Every emitted record is positive and trimmed -/

theorem parseCSVRow_emit_props (now : CalDate) (row : Row) (txn : Txn)
    (h : parseCSVRow now row = some txn) :
    (∃ q, txn.amount = some q ∧ 0 < q) ∧ txn.description ≠ "" ∧
      jsTrim txn.description = txn.description := by
  simp only [parseCSVRow] at h
  split at h
  · split at h
    · rw [Option.some.injEq] at h
      subst h
      rename_i hpos
      rw [Bool.and_eq_true] at hpos
      refine ⟨?_, ?_, jsTrim_idem _⟩
      · exact (gtZeroQ_eq_true_iff _).mp hpos.1
      · apply string_ne_empty_of_data
        have := hpos.2
        simp only [Bool.not_eq_true', List.isEmpty_eq_false] at this
        simpa [jsTrim] using this
    · exact Option.noConfusion h
  · exact Option.noConfusion h

theorem pdfLineParse_emit_props (line : String) (txn : Txn)
    (h : pdfLineParse line = some txn) :
    (∃ q, txn.amount = some q ∧ 0 < q) ∧ txn.description ≠ "" ∧
      jsTrim txn.description = txn.description := by
  simp only [pdfLineParse] at h
  split at h
  · exact Option.noConfusion h
  · split at h
    · exact Option.noConfusion h
    · split at h
      · rw [Option.some.injEq] at h
        subst h
        rename_i hpos
        rw [Bool.and_eq_true] at hpos
        refine ⟨?_, ?_, jsTrim_idem _⟩
        · exact (gtZeroQ_eq_true_iff _).mp hpos.1
        · apply string_ne_empty_of_data
          have := hpos.2
          simp only [Bool.not_eq_true', List.isEmpty_eq_false] at this
          simpa [jsTrim] using this
      · exact Option.noConfusion h

/-- C1. Every record emitted by the Tabular Row Normalizer or the
Statement Line Extractor has a strictly positive, non-NaN amount and a
non-empty trimmed description; rows and lines with non-positive or
unparseable amounts contribute no record (they are filtered out before
emission). -/
theorem c1_emitted_records_positive :
    (∀ now rows txn, txn ∈ parseCSVFile now rows →
      (∃ q, txn.amount = some q ∧ 0 < q) ∧ txn.description ≠ "" ∧
        jsTrim txn.description = txn.description) ∧
    (∀ text txn, txn ∈ parsePDFTransactions text →
      (∃ q, txn.amount = some q ∧ 0 < q) ∧ txn.description ≠ "" ∧
        jsTrim txn.description = txn.description) := by
  constructor
  · intro now rows txn hmem
    obtain ⟨row, _, hrow⟩ := List.mem_filterMap.mp hmem
    exact parseCSVRow_emit_props now row txn hrow
  · intro text txn hmem
    obtain ⟨line, _, hline⟩ := List.mem_filterMap.mp hmem
    exact pdfLineParse_emit_props line txn hline

/-- C1 witness: the theorem applied to the sample CSV row and the
sample statement line. -/
theorem c1_emitted_records_positive_witness :
    ((∃ q, sampleCsvTxn.amount = some q ∧ 0 < q) ∧ sampleCsvTxn.description ≠ "" ∧
      jsTrim sampleCsvTxn.description = sampleCsvTxn.description) ∧
    ((∃ q, samplePdfTxn.amount = some q ∧ 0 < q) ∧ samplePdfTxn.description ≠ "" ∧
      jsTrim samplePdfTxn.description = samplePdfTxn.description) :=
  ⟨c1_emitted_records_positive.1 ⟨1970, 1, 1⟩ [sampleCsvRow] sampleCsvTxn (by decide),
    c1_emitted_records_positive.2 samplePdfText samplePdfTxn (by decide)⟩

/-! ### How the greedy and lazy combinators behave on clean runs -/

/-- A digit is not JavaScript whitespace. -/
theorem isJsSpace_eq_false_of_digit {c : Char} (h : Char.isDigit c = true) :
    isJsSpace c = false := by
  by_contra hc
  rw [Bool.not_eq_false] at hc
  simp only [isJsSpace, Bool.or_eq_true, decide_eq_true_eq] at hc
  rcases hc with ((((hc | hc) | hc) | hc) | hc) | hc <;>
    (subst hc; exact absurd h (by decide))

/-- A digit differs from any concrete non-digit character. -/
theorem digit_ne {c : Char} (h : Char.isDigit c = true) (d : Char)
    (hd : Char.isDigit d = false) : ¬(c = d) := by
  intro hcd
  subst hcd
  rw [h] at hd
  exact Bool.noConfusion hd

/-- A greedy class star consumes exactly a maximal run: if the
continuation succeeds on the full run with a remainder that does not
start with a class character, the star returns that result. -/
theorem greedyStarC_of_run {α} (p : Char → Bool) (f : Chars → Chars → Option α)
    (xs rest : Chars) (hxs : ∀ c ∈ xs, p c = true)
    (hrest : rest = [] ∨ ∃ c cs, rest = c :: cs ∧ p c = false) {v : α} :
    ∀ acc, f (acc ++ xs) rest = some v →
      greedyStarC p f acc (xs ++ rest) = some v := by
  induction xs with
  | nil =>
    intro acc hf
    rcases hrest with rfl | ⟨c, cs, rfl, hc⟩
    · simpa [greedyStarC] using hf
    · simp only [List.nil_append, greedyStarC, hc, Bool.false_eq_true, if_false]
      simpa using hf
  | cons x xs2 ih =>
    intro acc hf
    have hx : p x = true := hxs x (List.mem_cons_self ..)
    have hres : greedyStarC p f (acc ++ [x]) (xs2 ++ rest) = some v :=
      ih (fun c hc => hxs c (List.mem_cons_of_mem _ hc)) (acc ++ [x])
        (by simpa using hf)
    show greedyStarC p f acc (x :: (xs2 ++ rest)) = some v
    simp only [greedyStarC, hx, if_true]
    rw [hres]
    rfl

/-- The capture `([0-9]+\.?[0-9]*)` on a digit run followed by a
remainder that starts with neither a digit nor a dot captures exactly
the run. -/
theorem numGroupK_digits {α} (f : Chars → Chars → Option α) (ds rest : Chars)
    (hds : ds ≠ []) (hdig : ∀ c ∈ ds, Char.isDigit c = true)
    (hrest : rest = [] ∨ ∃ c cs, rest = c :: cs ∧ Char.isDigit c = false ∧ c ≠ '.')
    {v : α} (hf : f ds rest = some v) : numGroupK f (ds ++ rest) = some v := by
  obtain ⟨d, ds2, rfl⟩ := List.exists_cons_of_ne_nil hds
  have hd : Char.isDigit d = true := hdig d (List.mem_cons_self ..)
  show numGroupK f (d :: (ds2 ++ rest)) = some v
  simp only [numGroupK, hd, if_true]
  apply greedyStarC_of_run Char.isDigit _ ds2 rest
    (fun c hc => hdig c (List.mem_cons_of_mem _ hc))
    (by
      rcases hrest with rfl | ⟨c, cs, rfl, hc, _⟩
      · exact Or.inl rfl
      · exact Or.inr ⟨c, cs, rfl, hc⟩)
  rcases hrest with rfl | ⟨c, cs, rfl, hcd2, hcdot⟩
  · show optCharG '.' _ [] = some v
    simp only [optCharG]
    show greedyStarC Char.isDigit _ [] [] = some v
    simp only [greedyStarC]
    simpa using hf
  · show optCharG '.' _ (c :: cs) = some v
    simp only [optCharG, hcdot, if_false]
    show greedyStarC Char.isDigit _ [] (c :: cs) = some v
    simp only [greedyStarC, hcd2, Bool.false_eq_true, if_false]
    simpa using hf

/-- The item-pattern tail `\s+\$?([0-9]+\.?[0-9]*)` on a single space,
a digit run, and a comma captures exactly the digits before the
comma. -/
theorem itemTail_comma (name ds rest : Chars) (hds : ds ≠ [])
    (hdig : ∀ c ∈ ds, Char.isDigit c = true) :
    itemTail name (' ' :: (ds ++ ',' :: rest)) = some (name, ds) := by
  obtain ⟨d, ds2, rfl⟩ := List.exists_cons_of_ne_nil hds
  have hd : Char.isDigit d = true := hdig d (List.mem_cons_self ..)
  have hdsp : isJsSpace d = false := isJsSpace_eq_false_of_digit hd
  have hddl : ¬(d = '$') := digit_ne hd '$' (by decide)
  unfold itemTail
  simp only [greedyPlusK, show isJsSpace ' ' = true from rfl, if_true]
  show greedyStarC isJsSpace _ [] (d :: (ds2 ++ ',' :: rest)) = some (name, d :: ds2)
  simp only [greedyStarC, hdsp, Bool.false_eq_true, if_false]
  show optCharG '$' _ (d :: (ds2 ++ ',' :: rest)) = some (name, d :: ds2)
  simp only [optCharG]
  rw [if_neg hddl]
  exact numGroupK_digits _ (d :: ds2) (',' :: rest) (by simp) hdig
    (Or.inr ⟨',', rest, rfl, by decide, by decide⟩) rfl

/-- The item pattern on a line `name SPACE digits COMMA rest`, where
the name has no whitespace, captures the name and only the digits
before the comma. -/
theorem itemAt_shape (w ds rest : Chars) (hw : w ≠ [])
    (hwd : ∀ c ∈ w, isDotChar c = true) (hws : ∀ c ∈ w, isJsSpace c = false)
    (hds : ds ≠ []) (hdig : ∀ c ∈ ds, Char.isDigit c = true) :
    itemAt (w ++ ' ' :: (ds ++ ',' :: rest)) = some (w, ds) := by
  unfold itemAt
  suffices h : ∀ (u : Chars), u ≠ [] → (∀ c ∈ u, isDotChar c = true) →
      (∀ c ∈ u, isJsSpace c = false) →
      ∀ acc, lazyPlusGo isDotChar itemTail acc (u ++ ' ' :: (ds ++ ',' :: rest)) =
        some (acc ++ u, ds) by
    simpa using h w hw hwd hws []
  intro u
  induction u with
  | nil =>
    intro hu _ _
    exact absurd rfl hu
  | cons c w2 ih =>
    intro _ hwd2 hws2 acc
    have hcd : isDotChar c = true := hwd2 c (List.mem_cons_self ..)
    rcases w2 with _ | ⟨c2, w3⟩
    · show lazyPlusGo isDotChar itemTail acc (c :: (' ' :: (ds ++ ',' :: rest))) =
        some (acc ++ [c], ds)
      simp only [lazyPlusGo, hcd, if_true]
      rw [itemTail_comma (acc ++ [c]) ds rest hds hdig]
      rfl
    · have hc2 : isJsSpace c2 = false := hws2 c2 (by simp)
      have hfail : itemTail (acc ++ [c]) (c2 :: (w3 ++ ' ' :: (ds ++ ',' :: rest))) = none := by
        simp only [itemTail, greedyPlusK, hc2, Bool.false_eq_true, if_false]
      have hres := ih (by simp) (fun x hx => hwd2 x (List.mem_cons_of_mem _ hx))
        (fun x hx => hws2 x (List.mem_cons_of_mem _ hx)) (acc ++ [c])
      show lazyPlusGo isDotChar itemTail acc
        (c :: (c2 :: (w3 ++ ' ' :: (ds ++ ',' :: rest)))) = some (acc ++ c :: c2 :: w3, ds)
      simp only [lazyPlusGo, hcd, if_true]
      rw [hfail]
      show lazyPlusGo isDotChar itemTail (acc ++ [c])
        (c2 :: (w3 ++ ' ' :: (ds ++ ',' :: rest))) = some (acc ++ c :: c2 :: w3, ds)
      simpa using hres

/-- C10. The receipt extractor's line-item amounts are parsed without
comma stripping: on a line whose name part has no whitespace and whose
trailing token is digits immediately followed by a comma, the captured
amount is exactly the digits before the comma, so "Laptop 1,299.99"
yields the single candidate item ("Laptop", 1) and not 1299.99. -/
theorem c10_item_amount_stops_at_comma :
    (∀ w ds rest, w ≠ [] → (∀ c ∈ w, isDotChar c = true) →
      (∀ c ∈ w, isJsSpace c = false) → ds ≠ [] → (∀ c ∈ ds, Char.isDigit c = true) →
      itemMatchLine (String.mk (w ++ ' ' :: (ds ++ ',' :: rest))) =
        some (String.mk w, String.mk ds)) ∧
    receiptItems "Laptop 1,299.99" = [("Laptop", 1)] := by
  constructor
  · intro w ds rest hw hwd hws hds hdig
    obtain ⟨c, w2, rfl⟩ := List.exists_cons_of_ne_nil hw
    have hit := itemAt_shape (c :: w2) ds rest hw hwd hws hds hdig
    simp only [itemMatchLine]
    show Option.map (fun p => (String.mk p.1, String.mk p.2))
      (searchA itemAt (c :: (w2 ++ ' ' :: (ds ++ ',' :: rest)))) =
      some (String.mk (c :: w2), String.mk ds)
    show Option.map (fun p => (String.mk p.1, String.mk p.2))
      ((itemAt (c :: (w2 ++ ' ' :: (ds ++ ',' :: rest)))).orElse
        (fun _ => searchA itemAt (w2 ++ ' ' :: (ds ++ ',' :: rest)))) =
      some (String.mk (c :: w2), String.mk ds)
    have hit2 : itemAt (c :: (w2 ++ ' ' :: (ds ++ ',' :: rest))) = some (c :: w2, ds) := hit
    rw [hit2]
    rfl
  · decide

/-- C10 witness: the general part applied to the line
"Laptop 1,299.99". -/
theorem c10_item_amount_stops_at_comma_witness :
    itemMatchLine (String.mk ("Laptop".data ++ ' ' :: ("1".data ++ ',' :: "299.99".data))) =
      some (String.mk "Laptop".data, String.mk "1".data) :=
  c10_item_amount_stops_at_comma.1 "Laptop".data "1".data "299.99".data
    (by decide) (by decide) (by decide) (by decide) (by decide)

/-! ### The receipt date loop keeps the last valid match -/

theorem getLast?_cons_some {α} (x : α) (t : List α) :
    (x :: t).getLast? = some ((t.getLast?).getD x) := by
  induction t generalizing x with
  | nil => rfl
  | cons y ys ih =>
    rw [List.getLast?_cons_cons, ih y]
    simp

theorem getLast?_cons_getD {α} (t : List α) (x d : α) :
    ((x :: t).getLast?).getD d = (t.getLast?).getD x := by
  rw [getLast?_cons_some]
  rfl

/-- The fold that overwrites the date on every line with a valid match
computes the last valid match, with the initial value as fallback. -/
theorem receiptDate_eq_getLast (now : CalDate) (text : String) :
    receiptDate now text =
      (((linesOf text).filterMap lineFirstValidDate).getLast?).getD now := by
  unfold receiptDate
  induction linesOf text generalizing now with
  | nil => rfl
  | cons l ls ih =>
    rw [List.foldl_cons, List.filterMap_cons]
    cases hg : lineFirstValidDate l with
    | none => simpa [hg] using ih now
    | some x =>
      rw [getLast?_cons_getD]
      simpa [hg] using ih x

/-- Specification-side date rule: the first valid date match in line
order, with the current date as fallback. -/
def specFirstDate (now : CalDate) (text : String) : CalDate :=
  (((linesOf text).filterMap lineFirstValidDate).head?).getD now

/-- C3 counterexample: on OCR text with valid dates on two lines, the
specified first-match date is January 15, 2024, but the extractor
returns the date of the last line, February 20, 2024. -/
theorem c3_first_match_date_counterexample :
    specFirstDate ⟨1970, 1, 1⟩ "01/15/2024\n02/20/2024" = ⟨2024, 1, 15⟩ ∧
    (extractReceiptData ⟨1970, 1, 1⟩ "01/15/2024\n02/20/2024").date = ⟨2024, 2, 20⟩ ∧
    (extractReceiptData ⟨1970, 1, 1⟩ "01/15/2024\n02/20/2024").date ≠
      specFirstDate ⟨1970, 1, 1⟩ "01/15/2024\n02/20/2024" := by
  refine ⟨by decide, by decide, by decide⟩

/-- C3 amended. Within a line the ordered date patterns are tried and
the first match that parses to a valid date wins, but across lines the
LAST line with a valid match wins (the source's `break` only leaves the
inner pattern loop); when no line has a valid match the extractor's
date is the current date at call time. -/
theorem c3_receipt_date_last_match :
    ∀ now text, (extractReceiptData now text).date =
      (((linesOf text).filterMap lineFirstValidDate).getLast?).getD now := by
  intro now text
  exact receiptDate_eq_getLast now text

/-! ### Clock dependence of the extractors -/

/-- A CSV row whose processing cannot reach the current-date fallback:
either it is skipped, or its date field parses. -/
def csvRowClockSafe (row : Row) : Bool :=
  !(truthy (fieldAlias row dateAliases) && truthy (fieldAlias row descAliases) &&
      truthy (fieldAlias row amountAliases)) ||
    (csvParsedDate ((fieldAlias row dateAliases).getD "")).isSome

theorem parseCSVRow_clock_free (t1 t2 : CalDate) (row : Row)
    (h : csvRowClockSafe row = true) : parseCSVRow t1 row = parseCSVRow t2 row := by
  simp only [csvRowClockSafe, Bool.or_eq_true, Bool.not_eq_true'] at h
  simp only [parseCSVRow]
  rcases h with h | h
  · rw [h]
    simp
  · split
    · obtain ⟨d, hd⟩ := Option.isSome_iff_exists.mp h
      rw [hd]
      simp only [Option.getD_some]
    · rfl

/-- C9 counterexample: two runs of the Receipt Text Extractor on the
same OCR text, at different call-time clocks, give different outputs
(the date fallback is the current date). -/
theorem c9_determinism_counterexample :
    extractReceiptData ⟨2024, 1, 1⟩ "hello" ≠ extractReceiptData ⟨2024, 1, 2⟩ "hello" := by
  decide

/-- C9 amended. The three extractors are pure functions of their input
and the call-time clock: the Statement Line Extractor never reads the
clock; the Receipt Text Extractor is clock-independent whenever some
line has a valid date match; the Tabular Row Normalizer is
clock-independent whenever every row is skipped or has a parseable
date. Only the current-date fallback makes reruns differ. -/
theorem c9_determinism_amended :
    (∀ text, parsePDFTransactions text = parsePDFTransactions text) ∧
    (∀ t1 t2 text, (linesOf text).filterMap lineFirstValidDate ≠ [] →
      extractReceiptData t1 text = extractReceiptData t2 text) ∧
    (∀ t1 t2 rows, (∀ row ∈ rows, csvRowClockSafe row = true) →
      parseCSVFile t1 rows = parseCSVFile t2 rows) := by
  refine ⟨fun _ => rfl, ?_, ?_⟩
  · intro t1 t2 text h
    have hsome : (((linesOf text).filterMap lineFirstValidDate).getLast?).isSome := by
      rw [List.getLast?_isSome]
      exact h
    obtain ⟨d, hd⟩ := Option.isSome_iff_exists.mp hsome
    unfold extractReceiptData
    rw [show receiptDate t1 text = _ from receiptDate_eq_getLast t1 text,
      show receiptDate t2 text = _ from receiptDate_eq_getLast t2 text, hd]
    rfl
  · intro t1 t2 rows h
    induction rows with
    | nil => rfl
    | cons row rest ih =>
      simp only [parseCSVFile, List.filterMap_cons]
      rw [parseCSVRow_clock_free t1 t2 row (h row (List.mem_cons_self ..))]
      have := ih (fun r hr => h r (List.mem_cons_of_mem _ hr))
      simp only [parseCSVFile] at this
      rw [this]

/-- C9 witness: the amended theorem applied to a dated receipt text and
to the sample CSV row list. -/
theorem c9_determinism_amended_witness :
    extractReceiptData ⟨2024, 1, 1⟩ "Total: $20.00 on 01/15/2024" =
      extractReceiptData ⟨2024, 1, 2⟩ "Total: $20.00 on 01/15/2024" ∧
    parseCSVFile ⟨2024, 1, 1⟩ [sampleCsvRow] = parseCSVFile ⟨2024, 1, 2⟩ [sampleCsvRow] :=
  ⟨c9_determinism_amended.2.1 ⟨2024, 1, 1⟩ ⟨2024, 1, 2⟩ "Total: $20.00 on 01/15/2024" (by decide),
    c9_determinism_amended.2.2 ⟨2024, 1, 1⟩ ⟨2024, 1, 2⟩ [sampleCsvRow]
      (by
        intro row hrow
        rw [List.mem_singleton] at hrow
        subst hrow
        decide)⟩

/-! ### The dead bare-dollar total pattern -/

theorem greedyStarC_some_imp {α} (p : Char → Bool) (f : Chars → Chars → Option α)
    (P : α → Prop) (hf : ∀ a r v, f a r = some v → P v) :
    ∀ acc s v, greedyStarC p f acc s = some v → P v := by
  intro acc s
  induction s generalizing acc with
  | nil =>
    intro v h
    exact hf _ _ _ h
  | cons c cs ih =>
    intro v h
    simp only [greedyStarC] at h
    split at h
    · cases hg : greedyStarC p f (acc ++ [c]) cs with
      | some u =>
        rw [hg] at h
        simp only [Option.orElse] at h
        rw [Option.some.injEq] at h
        subst h
        exact ih (acc ++ [c]) u hg
      | none =>
        rw [hg] at h
        simp only [Option.orElse] at h
        exact hf _ _ _ h
    · exact hf _ _ _ h

theorem greedyPlusK_some_imp {α} (p : Char → Bool) (f : Chars → Chars → Option α)
    (P : α → Prop) (hf : ∀ a r v, f a r = some v → P v)
    (s : Chars) (v : α) (h : greedyPlusK p f s = some v) : P v := by
  cases s with
  | nil => exact Option.noConfusion h
  | cons c cs =>
    simp only [greedyPlusK] at h
    split at h
    · exact greedyStarC_some_imp p _ P (fun a r u hu => hf _ _ _ hu) [] cs v h
    · exact Option.noConfusion h

/-- Every full match of the global pattern starts with a dollar sign. -/
theorem t4At_starts_dollar (s : Chars) (m rest : Chars)
    (h : t4At s = some (m, rest)) : ∃ tl, m = '$' :: tl := by
  unfold t4At at h
  split at h
  · refine greedyPlusK_some_imp Char.isDigit _ (fun v => ∃ tl, v.1 = '$' :: tl)
      ?_ _ _ h
    intro a r v hv
    split at hv
    · simp only [exactRep] at hv
      split at hv
      · rw [Option.some.injEq] at hv
        subst hv
        exact ⟨_, rfl⟩
      · exact Option.noConfusion hv
    · exact Option.noConfusion hv
  · exact Option.noConfusion h

theorem t4Go_starts_dollar : ∀ (n : Nat) (s : Chars) (m : String),
    m ∈ t4Go n s → ∃ tl, m.data = '$' :: tl := by
  intro n
  induction n with
  | zero =>
    intro s m h
    simp [t4Go] at h
  | succ n ih =>
    intro s m h
    cases s with
    | nil => simp [t4Go] at h
    | cons c cs =>
      rw [show t4Go (n + 1) (c :: cs) = (match t4At (c :: cs) with
        | some (m0, rest) => String.mk m0 :: t4Go n rest
        | none => t4Go n cs) from rfl] at h
      cases h4 : t4At (c :: cs) with
      | some pr =>
        rw [h4] at h
        rcases List.mem_cons.mp h with rfl | hmem
        · obtain ⟨tl, htl⟩ := t4At_starts_dollar (c :: cs) pr.1 pr.2 (by rw [h4])
          exact ⟨tl, htl⟩
        · exact ih pr.2 m hmem
      | none =>
        rw [h4] at h
        exact ih cs m h

/-- `parseFloat` of a string starting with a dollar sign is `NaN`. -/
theorem jsParseFloat_dollar (tl : Chars) :
    jsParseFloat (String.mk ('$' :: tl)) = none := rfl

/-- The fourth total pattern never contributes an amount: with the
global flag, `match[1]` is the second full match (or `undefined`), and
every full match starts with a dollar sign, so `parseFloat` yields
`NaN` in all cases. -/
theorem t4Cand_none (line : String) :
    ((t4All line).get? 1).bind jsParseFloat = none := by
  rcases h : t4All line with _ | ⟨a, rest⟩
  · rfl
  · rcases rest with _ | ⟨b, rest2⟩
    · rfl
    · have hb : b ∈ t4All line := by
        rw [h]
        exact List.mem_cons_of_mem _ (List.mem_cons_self ..)
      obtain ⟨tl, htl⟩ := t4Go_starts_dollar line.data.length line.data b hb
      show (some b).bind jsParseFloat = none
      cases b with
      | mk bdata =>
        simp only at htl
        rw [htl]
        exact jsParseFloat_dollar tl

/-! ### The total loop computes a maximum -/

theorem stepMax_some (t q : ℚ) : stepMax t (some q) = max t q := by
  show (if t < q then q else t) = max t q
  split
  · exact (max_eq_right (le_of_lt (by assumption))).symm
  · exact (max_eq_left (not_lt.mp (by assumption))).symm

theorem foldl_stepMax_eq_max (l : List (Option ℚ)) :
    ∀ t, l.foldl stepMax t = (l.filterMap id).foldl max t := by
  induction l with
  | nil => intro t; rfl
  | cons a l2 ih =>
    intro t
    cases a with
    | none =>
      simp only [List.foldl_cons, List.filterMap_cons]
      exact ih t
    | some q =>
      simp only [List.foldl_cons, List.filterMap_cons, id, stepMax_some]
      exact ih _

theorem foldl_nested_flat (g : String → List (Option ℚ)) (lines : List String) :
    ∀ t, lines.foldl (fun t line => (g line).foldl stepMax t) t =
      (lines.flatMap g).foldl stepMax t := by
  induction lines with
  | nil => intro t; rfl
  | cons l ls ih =>
    intro t
    simp only [List.foldl_cons, List.flatMap_cons, List.foldl_append]
    exact ih _

/-! ### Specification-side totals -/

/-- The five total patterns that can contribute a value. -/
def liveTotalCands (line : String) : List (Option ℚ) :=
  [ (searchA t1At line.data).bind (fun g => jsParseFloat (String.mk g)),
    (searchA t2At line.data).bind (fun g => jsParseFloat (String.mk g)),
    (searchA t3At line.data).bind (fun g => jsParseFloat (String.mk g)),
    (searchA t5At line.data).bind (fun g => jsParseFloat (String.mk g)),
    (searchA t6At line.data).bind (fun g => jsParseFloat (String.mk g)) ]

/-- All amounts matched by the five live total patterns across all
lines. -/
def specTotalMatches (text : String) : List ℚ :=
  ((linesOf text).flatMap liveTotalCands).filterMap id

/-- Specification-side total restricted to the five live patterns:
maximum of all matched amounts, 0 when none matched. -/
def specTotalFive (text : String) : ℚ :=
  (specTotalMatches text).foldl max 0

/-- The numeric values of the bare dollar-decimal matches of a line, as
the specification reads them (the captured amount after the sign). -/
def t4SpecVals (line : String) : List ℚ :=
  (t4All line).filterMap (fun m => jsParseFloat (String.mk (m.data.drop 1)))

/-- All amounts the specification attributes to the six total patterns
across all lines. -/
def specSixMatches (text : String) : List ℚ :=
  (linesOf text).flatMap (fun line =>
    ([(searchA t1At line.data).bind (fun g => jsParseFloat (String.mk g)),
      (searchA t2At line.data).bind (fun g => jsParseFloat (String.mk g)),
      (searchA t3At line.data).bind (fun g => jsParseFloat (String.mk g))].filterMap id) ++
    t4SpecVals line ++
    ([(searchA t5At line.data).bind (fun g => jsParseFloat (String.mk g)),
      (searchA t6At line.data).bind (fun g => jsParseFloat (String.mk g))].filterMap id))

/-- Specification-side total over all six patterns: maximum of all
matched amounts, 0 when none matched. -/
def specTotalSix (text : String) : ℚ :=
  (specSixMatches text).foldl max 0

/-- C2 counterexample: on the one-line text "$25.00" the specified
six-pattern maximum is 25.00 (the bare dollar-decimal pattern matches),
but the extractor's total is 0, because the global-flag match array
holds full matches rather than capture groups. -/
theorem c2_receipt_total_counterexample :
    (extractReceiptData ⟨1970, 1, 1⟩ "$25.00").total = 0 ∧
    specTotalSix "$25.00" = 25 ∧
    (extractReceiptData ⟨1970, 1, 1⟩ "$25.00").total ≠ specTotalSix "$25.00" := by
  refine ⟨by decide, by decide, by decide⟩

/-- C2 amended. The extractor's total equals the maximum numeric value
among all matches of the five contributing total patterns ("total",
"amount", "$X total", "grand total", "final total") across all lines —
the bare dollar-decimal pattern contributes nothing because of its
global flag — and 0 when none matched; on text with "Subtotal: $18.50"
and "Total: $20.00" on separate lines the total is 20.00. -/
theorem c2_receipt_total_is_live_max :
    (∀ now text, (extractReceiptData now text).total = specTotalFive text) ∧
    (extractReceiptData ⟨1970, 1, 1⟩ "Subtotal: $18.50\nTotal: $20.00").total = 20 := by
  constructor
  · intro now text
    show receiptTotal text = specTotalFive text
    unfold receiptTotal specTotalFive specTotalMatches
    rw [foldl_nested_flat totalCands (linesOf text) 0,
      foldl_stepMax_eq_max ((linesOf text).flatMap totalCands) 0]
    have hflat : ((linesOf text).flatMap totalCands).filterMap id =
        ((linesOf text).flatMap liveTotalCands).filterMap id := by
      induction linesOf text with
      | nil => rfl
      | cons l ls ih =>
        simp only [List.flatMap_cons, List.filterMap_append]
        rw [ih]
        have hline : (totalCands l).filterMap id = (liveTotalCands l).filterMap id := by
          unfold totalCands liveTotalCands
          rw [t4Cand_none l]
          simp only [List.filterMap_cons, id]
        rw [hline]
    rw [hflat]
  · decide

/-! ### Behaviour of the Monetary Token Parser on shaped input -/

theorem takeWhile_all_append (p : Char → Bool) (xs ys : Chars)
    (hxs : ∀ c ∈ xs, p c = true)
    (hys : ys = [] ∨ ∃ c cs, ys = c :: cs ∧ p c = false) :
    (xs ++ ys).takeWhile p = xs ∧ (xs ++ ys).dropWhile p = ys := by
  induction xs with
  | nil =>
    rcases hys with rfl | ⟨c, cs, rfl, hc⟩
    · exact ⟨rfl, rfl⟩
    · constructor
      · rw [List.nil_append, List.takeWhile_cons, hc]
        rfl
      · rw [List.nil_append, List.dropWhile_cons, hc]
        rfl
  | cons x xs2 ih =>
    have hx : p x = true := hxs x (List.mem_cons_self ..)
    obtain ⟨ih1, ih2⟩ := ih (fun c hc => hxs c (List.mem_cons_of_mem _ hc))
    constructor
    · rw [List.cons_append, List.takeWhile_cons, hx, if_pos rfl, ih1]
    · rw [List.cons_append, List.dropWhile_cons, hx, if_pos rfl, ih2]

theorem parseMantissa_digits (dds : Chars)
    (h1 : ∀ c ∈ dds, Char.isDigit c = true) (hne : dds ≠ []) :
    parseMantissa dds = some ((digitsVal dds : ℚ), []) := by
  obtain ⟨htake, hdrop⟩ :=
    takeWhile_all_append Char.isDigit dds [] h1 (Or.inl rfl)
  rw [List.append_nil] at htake hdrop
  simp only [parseMantissa]
  rw [htake, hdrop]
  show (if dds.isEmpty then none else some ((digitsVal dds : ℚ), ([] : Chars))) = _
  rw [List.isEmpty_eq_false.mpr hne]
  rfl

theorem parseMantissa_digits_dot (dds fs : Chars)
    (h1 : ∀ c ∈ dds, Char.isDigit c = true) (h2 : ∀ c ∈ fs, Char.isDigit c = true)
    (hne : ¬(dds = [] ∧ fs = [])) :
    parseMantissa (dds ++ '.' :: fs) =
      some ((digitsVal dds : ℚ) + fracVal fs, []) := by
  obtain ⟨htake, hdrop⟩ := takeWhile_all_append Char.isDigit dds ('.' :: fs) h1
    (Or.inr ⟨'.', fs, rfl, by decide⟩)
  obtain ⟨htake2, hdrop2⟩ :=
    takeWhile_all_append Char.isDigit fs [] h2 (Or.inl rfl)
  rw [List.append_nil] at htake2 hdrop2
  simp only [parseMantissa]
  rw [htake, hdrop]
  show (if dds.isEmpty && (fs.takeWhile Char.isDigit).isEmpty then none
    else some ((digitsVal dds : ℚ) + fracVal (fs.takeWhile Char.isDigit),
      fs.dropWhile Char.isDigit)) = _
  rw [htake2, hdrop2]
  have hcond : (dds.isEmpty && fs.isEmpty) = false := by
    rcases dds with _ | ⟨d, ds⟩
    · rcases fs with _ | ⟨f, fsr⟩
      · exact absurd ⟨rfl, rfl⟩ hne
      · rfl
    · rfl
  rw [hcond]
  rfl

theorem parseMantissa_no_digit (l : Chars)
    (h : ∀ c ∈ l, Char.isDigit c = false) : parseMantissa l = none := by
  have htake : l.takeWhile Char.isDigit = [] := by
    cases l with
    | nil => rfl
    | cons c cs =>
      rw [List.takeWhile_cons, h c (List.mem_cons_self ..)]
      rfl
  have hdrop : l.dropWhile Char.isDigit = l := by
    apply dropWhile_eq_self_of_head
    cases l with
    | nil => exact Or.inl rfl
    | cons c cs => exact Or.inr ⟨c, cs, rfl, h c (List.mem_cons_self ..)⟩
  simp only [parseMantissa]
  rw [htake, hdrop]
  split
  · rename_i rf
    have hrf : rf.takeWhile Char.isDigit = [] := by
      cases rf with
      | nil => rfl
      | cons d ds =>
        rw [List.takeWhile_cons, h d (List.mem_cons_of_mem _ (List.mem_cons_self ..))]
        rfl
    rw [hrf]
    rfl
  · rfl

theorem mem_of_mem_dropWhile {p : Char → Bool} {l : Chars} {c : Char}
    (h : c ∈ l.dropWhile p) : c ∈ l := by
  induction l with
  | nil => simp at h
  | cons x xs ih =>
    rw [List.dropWhile_cons] at h
    split at h
    · exact List.mem_cons_of_mem _ (ih h)
    · exact h

theorem jsParseFloatChars_no_digit (l : Chars)
    (h : ∀ c ∈ l, Char.isDigit c = false) : jsParseFloatChars l = none := by
  have hsub : ∀ c ∈ l.dropWhile isJsSpace, Char.isDigit c = false :=
    fun c hc => h c (mem_of_mem_dropWhile hc)
  simp only [jsParseFloatChars]
  cases ht : l.dropWhile isJsSpace with
  | nil => rfl
  | cons c cs =>
    show (if c = '-' then (parseMantissa cs).map (fun p => -(mantExpVal p))
      else if c = '+' then (parseMantissa cs).map (fun p => mantExpVal p)
      else (parseMantissa (c :: cs)).map (fun p => mantExpVal p)) = none
    have hcs : ∀ x ∈ cs, Char.isDigit x = false :=
      fun x hx => hsub x (by rw [ht]; exact List.mem_cons_of_mem _ hx)
    have hall : ∀ x ∈ c :: cs, Char.isDigit x = false :=
      fun x hx => hsub x (by rw [ht]; exact hx)
    by_cases hm : c = '-'
    · rw [if_pos hm, parseMantissa_no_digit cs hcs]
      rfl
    · rw [if_neg hm]
      by_cases hp : c = '+'
      · rw [if_pos hp, parseMantissa_no_digit cs hcs]
        rfl
      · rw [if_neg hp, parseMantissa_no_digit (c :: cs) hall]
        rfl

theorem jsParseFloatChars_nonneg_of_mantissa (c : Char) (cs : Chars)
    (hsp : isJsSpace c = false) (hminus : ¬(c = '-')) (hplus : ¬(c = '+'))
    (mv : ℚ) (hmv : parseMantissa (c :: cs) = some (mv, [])) (hmv0 : 0 ≤ mv) :
    ∃ q, jsParseFloatChars (c :: cs) = some q ∧ 0 ≤ q := by
  have hdw : (c :: cs).dropWhile isJsSpace = c :: cs :=
    dropWhile_eq_self_of_head _ _ (Or.inr ⟨c, cs, rfl, hsp⟩)
  refine ⟨mv * (10 : ℚ) ^ parseExponent [], ?_, ?_⟩
  · simp only [jsParseFloatChars]
    rw [hdw]
    show (if c = '-' then (parseMantissa cs).map (fun p => -(mantExpVal p))
      else if c = '+' then (parseMantissa cs).map (fun p => mantExpVal p)
      else (parseMantissa (c :: cs)).map (fun p => mantExpVal p)) = _
    rw [if_neg hminus, if_neg hplus, hmv]
    rfl
  · rw [show parseExponent [] = 0 from rfl, zpow_zero, mul_one]
    exact hmv0

theorem fracVal_nonneg (ds : Chars) : 0 ≤ fracVal ds := by
  unfold fracVal
  positivity

theorem keepC_of_digit {c : Char} (h : Char.isDigit c = true) : keepC c = true := by
  simp [keepC, digit_ne h '$' (by decide), digit_ne h ',' (by decide),
    digit_ne h '₹' (by decide)]

/-- The full-match language of `[$₹]?[0-9,]+\.?[0-9]*`: an optional
currency symbol, a non-empty block of digits and commas, and an
optional dot followed by digits. -/
def MoneyShape (s : String) : Prop :=
  ∃ sym dc fr : Chars,
    s.data = sym ++ dc ++ fr ∧
    (sym = [] ∨ sym = ['$'] ∨ sym = ['₹']) ∧
    dc ≠ [] ∧ (∀ c ∈ dc, Char.isDigit c = true ∨ c = ',') ∧
    (fr = [] ∨ ∃ fs, fr = '.' :: fs ∧ ∀ c ∈ fs, Char.isDigit c = true)

/-- The stripped form of a money-shaped string: the kept digits of the
digit/comma block followed by the unchanged fraction part. -/
theorem stripped_of_shape (sym dc fr : Chars)
    (hsym : sym = [] ∨ sym = ['$'] ∨ sym = ['₹'])
    (hdcm : ∀ c ∈ dc, Char.isDigit c = true ∨ c = ',')
    (hfr : fr = [] ∨ ∃ fs, fr = '.' :: fs ∧ ∀ c ∈ fs, Char.isDigit c = true) :
    (sym ++ dc ++ fr).filter keepC = (dc.filter keepC) ++ fr ∧
      (∀ c ∈ dc.filter keepC, Char.isDigit c = true) := by
  have hsymf : sym.filter keepC = [] := by
    rcases hsym with rfl | rfl | rfl <;> rfl
  have hfrf : fr.filter keepC = fr := by
    rcases hfr with rfl | ⟨fs, rfl, hfs⟩
    · rfl
    · rw [show ('.' :: fs).filter keepC = '.' :: fs.filter keepC from by
        rw [List.filter_cons]; rfl]
      rw [List.filter_eq_self.mpr (fun c hc => keepC_of_digit (hfs c hc))]
  constructor
  · rw [List.filter_append, List.filter_append, hsymf, hfrf, List.nil_append]
  · intro c hc
    obtain ⟨hmem, hkeep⟩ := List.mem_filter.mp hc
    rcases hdcm c hmem with h | rfl
    · exact h
    · exact absurd hkeep (by decide)

/-- C7. The Monetary Token Parser is `parseFloat` after stripping
currency symbols and commas; on every string of the money shape
`[$₹]?[0-9,]+\.?[0-9]*` that contains a digit it returns a non-negative
decimal, on digit-free input it returns `NaN` (`none`), and the caller
discards a row whose amount parses to `NaN`. -/
theorem c7_monetary_token_contract :
    (∀ s : String, monetaryParse s = jsParseFloat (stripCurrency s)) ∧
    (∀ s : String, MoneyShape s → (∃ c ∈ s.data, Char.isDigit c = true) →
      ∃ q, monetaryParse s = some q ∧ 0 ≤ q) ∧
    (∀ s : String, (∀ c ∈ s.data, Char.isDigit c = false) → monetaryParse s = none) ∧
    (∀ now row, monetaryParse ((fieldAlias row amountAliases).getD "") = none →
      parseCSVRow now row = none) := by
  refine ⟨fun _ => rfl, ?_, ?_, ?_⟩
  · intro s hshape hdig
    obtain ⟨sym, dc, fr, hs, hsym, hdc, hdcm, hfr⟩ := hshape
    obtain ⟨hstrip, hdds⟩ := stripped_of_shape sym dc fr hsym hdcm hfr
    have hmp : monetaryParse s = jsParseFloatChars ((dc.filter keepC) ++ fr) := by
      show jsParseFloatChars (s.data.filter keepC) = _
      rw [hs, hstrip]
    rw [hmp]
    rcases hd : dc.filter keepC with _ | ⟨d, dds2⟩
    · -- no digit survived the comma block: the digit must be in the fraction
      obtain ⟨c0, hc0mem, hc0dig⟩ := hdig
      rw [hs] at hc0mem
      have hc0fr : c0 ∈ fr := by
        rcases List.mem_append.mp hc0mem with hin | hin
        · rcases List.mem_append.mp hin with hin2 | hin2
          · exfalso
            rcases hsym with rfl | rfl | rfl
            · simp at hin2
            · rw [List.mem_singleton] at hin2
              subst hin2
              exact absurd hc0dig (by decide)
            · rw [List.mem_singleton] at hin2
              subst hin2
              exact absurd hc0dig (by decide)
          · exact absurd (List.mem_filter.mpr ⟨hin2, keepC_of_digit hc0dig⟩)
              (by rw [hd]; simp)
        · exact hin
      rcases hfr with rfl | ⟨fs, rfl, hfs⟩
      · simp at hc0fr
      · have hc0fs : c0 ∈ fs := by
          rcases List.mem_cons.mp hc0fr with rfl | hin
          · exact absurd hc0dig (by decide)
          · exact hin
        have hfsne : fs ≠ [] := List.ne_nil_of_mem hc0fs
        have hm := parseMantissa_digits_dot [] fs (by simp) hfs
          (fun hpair => hfsne hpair.2)
        rw [List.nil_append] at hm
        exact jsParseFloatChars_nonneg_of_mantissa '.' fs rfl (by decide) (by decide)
          _ hm (add_nonneg (Nat.cast_nonneg _) (fracVal_nonneg fs))
    · have hddig : ∀ c ∈ d :: dds2, Char.isDigit c = true := by
        rw [← hd]
        exact hdds
      have hddig0 : Char.isDigit d = true := hddig d (List.mem_cons_self ..)
      rcases hfr with rfl | ⟨fs, rfl, hfs⟩
      · rw [List.append_nil]
        have hm := parseMantissa_digits (d :: dds2) hddig (by simp)
        exact jsParseFloatChars_nonneg_of_mantissa d dds2
          (isJsSpace_eq_false_of_digit hddig0)
          (digit_ne hddig0 '-' (by decide)) (digit_ne hddig0 '+' (by decide))
          _ hm (Nat.cast_nonneg _)
      · have hm := parseMantissa_digits_dot (d :: dds2) fs hddig hfs
          (fun hpair => by exact absurd hpair.1 (by simp))
        rw [show (d :: dds2) ++ '.' :: fs = d :: (dds2 ++ '.' :: fs) from rfl] at hm
        have hres := jsParseFloatChars_nonneg_of_mantissa d (dds2 ++ '.' :: fs)
          (isJsSpace_eq_false_of_digit hddig0)
          (digit_ne hddig0 '-' (by decide)) (digit_ne hddig0 '+' (by decide))
          _ hm (add_nonneg (Nat.cast_nonneg _) (fracVal_nonneg fs))
        simpa using hres
  · intro s h
    show jsParseFloatChars (s.data.filter keepC) = none
    exact jsParseFloatChars_no_digit _
      (fun c hc => h c (List.mem_filter.mp hc).1)
  · intro now row h
    simp only [parseCSVRow, h]
    split
    · simp [gtZeroQ]
    · rfl

/-- C7 witness: the theorem applied to the shaped string "$1,234.50"
and to the digit-free string ",". -/
theorem c7_monetary_token_contract_witness :
    (∃ q, monetaryParse "$1,234.50" = some q ∧ 0 ≤ q) ∧ monetaryParse "," = none :=
  ⟨c7_monetary_token_contract.2.1 "$1,234.50"
      ⟨['$'], "1,234".data, ".50".data, by decide, by decide, by decide, by decide,
        Or.inr ⟨"50".data, by decide, by decide⟩⟩
      (by decide),
    c7_monetary_token_contract.2.2.1 "," (by decide)⟩

end PFA
